import Mathlib

/-
Verification of the exostate reactive state container (src/store.ts,
src/transaction.ts, combineStores) against its natural-language design
document.

The embedding is shallow: the mutable store cell becomes a structure
threaded explicitly through every operation; JavaScript exceptions become
`Except` results; a mutation entry point returns the value it produced (or
the exception it propagated), the store state after the call, and the
number of notification passes it triggered.
-/

namespace Exostate

/-- The value cell of a store: `current` and the monotone `version` counter
(store.ts: `let current = initial; let version = 0` and the `StoreImpl`
fields `current` / `version`). -/
structure Store (T : Type) where
  current : T
  version : Nat
deriving Repr, DecidableEq

/-- Store construction (store.ts `createStore`): value is the given initial
value, version starts at 0, listener registry empty (registries are modelled
separately below). -/
def createStore {T : Type} (initial : T) : Store T :=
  { current := initial, version := 0 }

/-- `read()` returns the current value reference. -/
def Store.read {T : Type} (s : Store T) : T :=
  s.current

/-- `snapshot()` returns the same underlying value as a read-only alias
(the read-only marker is compile-time only in the source, so the embedding
returns the value itself). -/
def Store.snapshot {T : Type} (s : Store T) : T :=
  s.current

/-- The interaction of a `batch` callback with the `applier` it receives
(store.ts `batch`): the trace of the `apply(reducer, payload)` calls the
callback completes, ending either in a normal return (`done`) or in a
thrown exception (`raise`).  A reducer that itself throws is the trace
that ends in `raise` right after its predecessors' completed calls, since
the exception propagates through the applier out of the callback. -/
inductive BatchProg (E T : Type) : Type 1 where
  | done : BatchProg E T
  | raise (e : E) : BatchProg E T
  | apply (P : Type) (reducer : T → P → T) (payload : P) (rest : BatchProg E T) : BatchProg E T

/-- Running the callback against the applier: the local accumulator `next`
starts at the store's current value and each completed `apply` call folds
`reducer(next, payload)` into it; a throw aborts with the exception. -/
def runBatch {E T : Type} : BatchProg E T → T → Except E T
  | .done, next => .ok next
  | .raise e, _ => .error e
  | .apply _ reducer payload rest, next => runBatch rest (reducer next payload)

/-- The (payload-applied) reducer of each completed `apply` call of the
callback, in call order. -/
def BatchProg.calls {E T : Type} : BatchProg E T → List (T → T)
  | .done => []
  | .raise _ => []
  | .apply _ reducer payload rest => (fun t => reducer t payload) :: rest.calls

/-- Whether the callback returns normally (no throw anywhere in the trace). -/
def BatchProg.returnsNormally {E T : Type} : BatchProg E T → Bool
  | .done => true
  | .raise _ => false
  | .apply _ _ _ rest => rest.returnsNormally

/-- store.ts `update`: run the reducer on the current value; only if it
returns does the store commit the result, bump `version` and run one
notification pass.  A throwing reducer leaves the store untouched and
propagates. -/
def Store.update {E T P : Type} (s : Store T) (reducer : T → P → Except E T)
    (payload : P) : Except E T × Store T × Nat :=
  match reducer s.current payload with
  | .error e => (.error e, s, 0)
  | .ok next => (.ok next, { current := next, version := s.version + 1 }, 1)

/-- store.ts `set`: unconditionally replace the value, bump `version`, one
notification pass, return the new value.  Never fails. -/
def Store.set {T : Type} (s : Store T) (next : T) : T × Store T × Nat :=
  (next, { current := next, version := s.version + 1 }, 1)

/-- store.ts `compute`: like `update` without a payload. -/
def Store.compute {E T : Type} (s : Store T) (fn : T → Except E T) :
    Except E T × Store T × Nat :=
  match fn s.current with
  | .error e => (.error e, s, 0)
  | .ok next => (.ok next, { current := next, version := s.version + 1 }, 1)

/-- store.ts `batch`: run the callback, folding its `apply` calls into a
local accumulator starting from the current value; only after the callback
returns is the store set once to the accumulated value, `version` bumped
once, one notification pass run.  A throw anywhere leaves the store
untouched and propagates. -/
def Store.batch {E T : Type} (s : Store T) (prog : BatchProg E T) :
    Except E T × Store T × Nat :=
  match runBatch prog s.current with
  | .error e => (.error e, s, 0)
  | .ok next => (.ok next, { current := next, version := s.version + 1 }, 1)

/-- store.ts `effect`: invoke the function on the current value and the
payload and hand back its result; the store itself is not mutated and no
notification pass runs. -/
def Store.effect {T P A : Type} (s : Store T) (fn : T → P → A) (payload : P) :
    A × Store T × Nat :=
  (fn s.current payload, s, 0)

/-- One call to any of the four mutation entry points, with its argument. -/
inductive StoreOp (E T : Type) : Type 1 where
  | set (next : T) : StoreOp E T
  | update (P : Type) (reducer : T → P → Except E T) (payload : P) : StoreOp E T
  | compute (fn : T → Except E T) : StoreOp E T
  | batch (prog : BatchProg E T) : StoreOp E T

/-- Dispatch of a mutation entry point call (store.ts return-value
convention: `set` always succeeds). -/
def Store.step {E T : Type} (s : Store T) : StoreOp E T → Except E T × Store T × Nat
  | .set next =>
      let r := Store.set s next
      (.ok r.1, r.2.1, r.2.2)
  | .update _ reducer payload => Store.update s reducer payload
  | .compute fn => Store.compute s fn
  | .batch prog => Store.batch s prog

theorem runBatch_of_returnsNormally {E T : Type} (prog : BatchProg E T) :
    prog.returnsNormally = true →
    ∀ t : T, runBatch prog t = .ok (prog.calls.foldl (fun a f => f a) t) := by
  induction prog with
  | done => intro _ t; rfl
  | raise e => intro h; cases h
  | apply P reducer payload rest ih =>
      intro h t
      exact ih h (reducer t payload)

/-- Claim C1: if the function passed to `update`, `compute` or `batch`
throws, the exception propagates to the caller unchanged, the store's value
and version are exactly as before the call, and no notification pass
occurs. -/
theorem c1_throw_preserves_store {E T : Type} (s : Store T) :
    (∀ (P : Type) (reducer : T → P → Except E T) (payload : P) (e : E),
        reducer s.current payload = .error e →
        Store.update s reducer payload = (.error e, s, 0)) ∧
    (∀ (fn : T → Except E T) (e : E),
        fn s.current = .error e →
        Store.compute s fn = (.error e, s, 0)) ∧
    (∀ (prog : BatchProg E T) (e : E),
        runBatch prog s.current = .error e →
        Store.batch s prog = (.error e, s, 0)) := by
  refine ⟨?_, ?_, ?_⟩
  · intro P reducer payload e h
    unfold Store.update
    rw [h]
  · intro fn e h
    unfold Store.compute
    rw [h]
  · intro prog e h
    unfold Store.batch
    rw [h]

theorem c1_witness :
    Store.update (createStore (0 : Nat)) (fun _ _ => (.error 7 : Except Nat Nat)) (1 : Nat) =
      (.error 7, createStore 0, 0) ∧
    Store.compute (createStore (0 : Nat)) (fun _ => (.error 8 : Except Nat Nat)) =
      (.error 8, createStore 0, 0) ∧
    Store.batch (createStore (0 : Nat))
        (BatchProg.apply Nat (fun t d => t + d) 5 (.raise 9)) =
      (.error 9, createStore 0, 0) := by
  refine ⟨?_, ?_, ?_⟩
  · exact (c1_throw_preserves_store (createStore 0)).1 Nat _ 1 7 rfl
  · exact (c1_throw_preserves_store (createStore 0)).2.1 _ 8 rfl
  · exact (c1_throw_preserves_store (createStore 0)).2.2 _ 9 rfl

/-- Claim C2: a `batch` whose callback completes N `apply` calls and
returns normally sets the store exactly once to the left fold of the N
payload-applied reducers over the prior value, bumps `version` by exactly
1, and triggers exactly one notification pass, regardless of N. -/
theorem c2_batch_folds_once {E T : Type} (s : Store T) (prog : BatchProg E T) :
    prog.returnsNormally = true →
    Store.batch s prog =
      (.ok (prog.calls.foldl (fun a f => f a) s.current),
       { current := prog.calls.foldl (fun a f => f a) s.current,
         version := s.version + 1 },
       1) := by
  intro h
  unfold Store.batch
  rw [runBatch_of_returnsNormally prog h s.current]

theorem c2_witness :
    Store.batch (createStore (0 : Nat))
        (BatchProg.apply Nat (fun t d => t + d) 1
          (BatchProg.apply Nat (fun t d => t + d) 2 (.done (E := Nat)))) =
      (.ok 3, { current := 3, version := 1 }, 1) := by
  exact c2_batch_folds_once (createStore 0)
    (BatchProg.apply Nat (fun t d => t + d) 1
      (BatchProg.apply Nat (fun t d => t + d) 2 .done)) rfl

/-- Claim C3: `version` starts at 0; every successful `set`/`update`/
`compute`/`batch` call increments it by exactly 1 (a batch counting as one
mutation regardless of internal steps); a failed call leaves the store —
value and version — untouched; the counter never decreases; and `effect`,
which does not replace the value, never changes the store or notifies. -/
theorem c3_version_discipline {E T : Type} (v : T) :
    (createStore v).version = 0 ∧
    (∀ (s : Store T) (op : StoreOp E T),
      ((Store.step s op).1.isOk = true →
        (Store.step s op).2.1.version = s.version + 1) ∧
      ((Store.step s op).1.isOk = false → (Store.step s op).2.1 = s) ∧
      s.version ≤ (Store.step s op).2.1.version) ∧
    (∀ (P A : Type) (s : Store T) (fn : T → P → A) (payload : P),
      (Store.effect s fn payload).2.1 = s ∧ (Store.effect s fn payload).2.2 = 0) := by
  refine ⟨rfl, ?_, ?_⟩
  · intro s op
    cases op with
    | set next =>
        refine ⟨fun _ => rfl, fun h => ?_, Nat.le_succ _⟩
        exact absurd h (by simp [Store.step, Store.set, Except.isOk, Except.toBool])
    | update P reducer payload =>
        simp only [Store.step, Store.update]
        cases h : reducer s.current payload with
        | error e => exact ⟨fun hk => by simp [Except.isOk, Except.toBool] at hk,
            fun _ => rfl, Nat.le_refl _⟩
        | ok next => exact ⟨fun _ => rfl,
            fun hk => by simp [Except.isOk, Except.toBool] at hk, Nat.le_succ _⟩
    | compute fn =>
        simp only [Store.step, Store.compute]
        cases h : fn s.current with
        | error e => exact ⟨fun hk => by simp [Except.isOk, Except.toBool] at hk,
            fun _ => rfl, Nat.le_refl _⟩
        | ok next => exact ⟨fun _ => rfl,
            fun hk => by simp [Except.isOk, Except.toBool] at hk, Nat.le_succ _⟩
    | batch prog =>
        simp only [Store.step, Store.batch]
        cases h : runBatch prog s.current with
        | error e => exact ⟨fun hk => by simp [Except.isOk, Except.toBool] at hk,
            fun _ => rfl, Nat.le_refl _⟩
        | ok next => exact ⟨fun _ => rfl,
            fun hk => by simp [Except.isOk, Except.toBool] at hk, Nat.le_succ _⟩
  · intro P A s fn payload
    exact ⟨rfl, rfl⟩

theorem c3_witness :
    (createStore (5 : Nat)).version = 0 ∧
    (Store.step (createStore (5 : Nat)) (StoreOp.set (E := Nat) 6)).2.1.version = 1 ∧
    (Store.step (createStore (5 : Nat))
        (StoreOp.compute (fun _ => (.error 3 : Except Nat Nat)))).2.1 = createStore 5 := by
  refine ⟨(c3_version_discipline (E := Nat) 5).1, ?_, ?_⟩
  · exact ((c3_version_discipline (E := Nat) 5).2.1 (createStore 5) (StoreOp.set 6)).1 rfl
  · exact ((c3_version_discipline (E := Nat) 5).2.1 (createStore 5)
      (StoreOp.compute (fun _ => .error 3))).2.1 rfl

/-! Selector subscriptions (store.ts `subscribe` and the `notify` closure). -/

/-- The default equality of `subscribe` is `Object.is`; on the model types
(numbers, booleans, ...) `Object.is` is plain decidable equality. -/
def objectIs {R : Type} [DecidableEq R] : R → R → Bool :=
  fun a b => decide (a = b)

/-- The options bag of `subscribe`: an optional equality (absent means the
`Object.is` default) and the `fireImmediately` flag. -/
structure SubscribeOptions (R : Type) where
  eq : Option (R → R → Bool)
  fireImmediately : Bool

/-- The state a `subscribe` call closes over: the selector, the resolved
equality, and the mutable previous selected value `prev`. -/
structure Subscription (T R : Type) where
  selector : T → R
  eq : R → R → Bool
  prev : R

/-- store.ts `subscribe`: resolve `eq` (defaulting to `Object.is`), seed
`prev` with the selector applied to the current value, and fire the
subscriber immediately when requested.  Returns the listener state and the
immediately-delivered value, if any. -/
def Store.subscribe {T R : Type} [DecidableEq R] (s : Store T) (selector : T → R)
    (options : SubscribeOptions R) : Subscription T R × Option R :=
  let eq := options.eq.getD objectIs
  let prev := selector s.current
  (⟨selector, eq, prev⟩, if options.fireImmediately then some prev else none)

/-- One invocation of a listener's `notify` closure during a notification
pass: re-apply the selector to the (post-mutation) current value; when
`eq prev next` is false, update `prev` and fire the subscriber with `next`
(`some next`); otherwise do nothing (`none`). -/
def Subscription.notify {T R : Type} (sub : Subscription T R) (current : T) :
    Subscription T R × Option R :=
  let next := sub.selector current
  if sub.eq sub.prev next then (sub, none)
  else ({ sub with prev := next }, some next)

/-- Claim C4: on a mutation-triggered notification pass the selector is
re-applied to the new state; the subscriber fires, with the new selected
value, exactly when `eq prev next` is false; `prev` is updated exactly
then; and a `subscribe` call with no `eq` option resolves the equality to
`Object.is`. -/
theorem c4_selector_dedup {T R : Type} [DecidableEq R] (sub : Subscription T R)
    (current : T) (s : Store T) (selector : T → R) (fi : Bool) :
    ((Subscription.notify sub current).2 = some (sub.selector current) ↔
      sub.eq sub.prev (sub.selector current) = false) ∧
    ((Subscription.notify sub current).2 = none ↔
      sub.eq sub.prev (sub.selector current) = true) ∧
    (sub.eq sub.prev (sub.selector current) = false →
      (Subscription.notify sub current).1.prev = sub.selector current) ∧
    (sub.eq sub.prev (sub.selector current) = true →
      (Subscription.notify sub current).1 = sub) ∧
    (Store.subscribe s selector ⟨none, fi⟩).1.eq = objectIs := by
  unfold Subscription.notify
  cases h : sub.eq sub.prev (sub.selector current) with
  | false => simp [h, Store.subscribe, Option.getD]
  | true => simp [h, Store.subscribe, Option.getD]

theorem c4_witness :
    (Subscription.notify (⟨fun t => t, objectIs, 0⟩ : Subscription Nat Nat) 5).2 = some 5 ∧
    (Subscription.notify (⟨fun t => t, objectIs, 5⟩ : Subscription Nat Nat) 5).2 = none ∧
    (Store.subscribe (createStore (7 : Nat)) (fun t => t) ⟨none, false⟩).1.eq = objectIs := by
  refine ⟨?_, ?_, ?_⟩
  · exact (c4_selector_dedup (⟨fun t => t, objectIs, 0⟩ : Subscription Nat Nat) 5
      (createStore 7) (fun t => t) false).1.mpr (by decide)
  · exact (c4_selector_dedup (⟨fun t => t, objectIs, 5⟩ : Subscription Nat Nat) 5
      (createStore 7) (fun t => t) false).2.1.mpr (by decide)
  · exact (c4_selector_dedup (⟨fun t => t, objectIs, 0⟩ : Subscription Nat Nat) 5
      (createStore 7) (fun t => t) false).2.2.2.2

/-!
Notification passes over the listener registry.  The repository holds two
revisions of the registry:

* the class-based `StoreImpl` keeps the listeners in a `Set` replaced
  copy-on-write on every subscribe/unsubscribe, so the `for..of` in
  `notifyListeners` iterates the set object captured when the pass began
  and is unaffected by reassignment of `this.listeners` mid-pass;

* the earlier closure-based `createStore` keeps an array and unsubscribes
  via `indexOf` + in-place `splice(idx, 1)` on the very array the pass is
  iterating, so a removal at or before the iteration cursor shifts the
  remaining elements under it.

A listener is modelled by an identifier together with the (finite) list of
listeners it unsubscribes during its own invocation; `unsubsOf l` gives
that list.  Removal of an absent listener is a no-op in both revisions
(`Set.has` guard, `indexOf` returning -1), which is `List.erase`.
-/

/-- Copy-on-write pass (StoreImpl): walk the `snapshot` of the registry
taken when the pass began, invoking each listener in order and applying
its unsubscribes to the live registry; the walk itself never consults the
live registry.  Returns the invoked listeners in order and the registry
left for subsequent passes. -/
def cowPassAux {L : Type} [DecidableEq L] (unsubsOf : L → List L) :
    List L → List L → List L × List L
  | [], reg => ([], reg)
  | l :: rest, reg =>
      let reg' := (unsubsOf l).foldl (fun r u => r.erase u) reg
      let p := cowPassAux unsubsOf rest reg'
      (l :: p.1, p.2)

/-- A full copy-on-write notification pass starting from registry `reg`. -/
def cowPass {L : Type} [DecidableEq L] (reg : List L) (unsubsOf : L → List L) :
    List L × List L :=
  cowPassAux unsubsOf reg reg

/-- In-place-splice pass (closure-based `createStore`): the `for..of`
cursor `i` walks the live array itself; each visited listener's
unsubscribes splice the array in place before the cursor advances.  `fuel`
bounds the iteration count; `arr.length` steps always suffice because the
cursor advances every step and the array only shrinks. -/
def splicePassAux {L : Type} [DecidableEq L] (unsubsOf : L → List L) :
    Nat → List L → Nat → List L × List L
  | 0, arr, _ => ([], arr)
  | fuel + 1, arr, i =>
      match arr.get? i with
      | none => ([], arr)
      | some l =>
          let arr' := (unsubsOf l).foldl (fun r u => r.erase u) arr
          let p := splicePassAux unsubsOf fuel arr' (i + 1)
          (l :: p.1, p.2)

/-- A full in-place-splice notification pass starting from array `arr`. -/
def splicePass {L : Type} [DecidableEq L] (arr : List L) (unsubsOf : L → List L) :
    List L × List L :=
  splicePassAux unsubsOf arr.length arr 0

theorem cowPassAux_invoked {L : Type} [DecidableEq L] (unsubsOf : L → List L) :
    ∀ (snapshot reg : List L), (cowPassAux unsubsOf snapshot reg).1 = snapshot := by
  intro snapshot
  induction snapshot with
  | nil => intro reg; rfl
  | cons l rest ih =>
      intro reg
      simp [cowPassAux, ih]

/-- Counterexample to claim C5 as stated over both registry revisions: in
the closure-based `createStore`, with listeners `[0, 1]` where listener 0
unsubscribes itself, the in-place splice shifts listener 1 under the
`for..of` cursor and the pass skips it — a listener registered at the
start of the pass is invoked zero times, not exactly once. -/
theorem c5_splice_skips_listener :
    (splicePass [0, 1] (fun l : Nat => if l = 0 then [0] else [])).1.count 1 = 0 ∧
    (1 : Nat) ∈ [0, 1] ∧
    (splicePass [0, 1] (fun l : Nat => if l = 0 then [0] else [])).1 = [0] := by
  decide

/-- Claim C5 (amended to the copy-on-write registry of `StoreImpl`, the
revision the exported `createStore` constructs): every listener in the
registry snapshotted at the start of a pass is invoked during that pass,
in registration order and — the registry being a set, hence duplicate-free
— exactly once; the invoked sequence does not depend on which unsubscribes
the listeners perform, so mid-pass unsubscribes (including a listener
removing itself) only affect the registry left for subsequent passes. -/
theorem c5_cow_snapshot_pass {L : Type} [DecidableEq L] (reg : List L)
    (unsubsOf : L → List L) :
    (cowPass reg unsubsOf).1 = reg ∧
    (reg.Nodup → ∀ l ∈ reg, (cowPass reg unsubsOf).1.count l = 1) := by
  refine ⟨cowPassAux_invoked unsubsOf reg reg, ?_⟩
  intro hnd l hl
  rw [show (cowPass reg unsubsOf).1 = reg from cowPassAux_invoked unsubsOf reg reg]
  exact List.count_eq_one_of_mem hnd hl

theorem c5_witness :
    (cowPass [0, 1] (fun l : Nat => if l = 0 then [0] else [])).1 = [0, 1] ∧
    (cowPass [0, 1] (fun l : Nat => if l = 0 then [0] else [])).1.count 1 = 1 := by
  refine ⟨(c5_cow_snapshot_pass [0, 1] (fun l : Nat => if l = 0 then [0] else [])).1, ?_⟩
  exact (c5_cow_snapshot_pass [0, 1] (fun l : Nat => if l = 0 then [0] else [])).2
    (by decide) 1 (by decide)

/-! Transaction scopes (transaction.ts `beginTransaction`). -/

/-- The state a transaction scope closes over: the `initial` baseline
snapshotted from the container at creation, and the working value `next`
(the spec's `pending`). -/
structure Transaction (T : Type) where
  initial : T
  next : T

/-- transaction.ts `beginTransaction`: snapshot the container once; the
working value starts at the baseline. -/
def beginTransaction {T : Type} (store : Store T) : Transaction T :=
  { initial := Store.snapshot store, next := Store.snapshot store }

/-- Scope `read()`: the current pending value. -/
def Transaction.read {T : Type} (t : Transaction T) : T :=
  t.next

/-- Scope `apply(reducer, payload)`: fold the reducer into `next` only;
the container is never touched.  Returns the new pending value. -/
def Transaction.apply {T P : Type} (t : Transaction T) (reducer : T → P → T)
    (payload : P) : Transaction T × T :=
  let n := reducer t.next payload
  ({ t with next := n }, n)

/-- Scope `compute(fn)`: like `apply` without a payload. -/
def Transaction.compute {T : Type} (t : Transaction T) (fn : T → T) :
    Transaction T × T :=
  let n := fn t.next
  ({ t with next := n }, n)

/-- Scope `set(s)`: replace the pending value outright. -/
def Transaction.set {T : Type} (t : Transaction T) (v : T) : Transaction T × T :=
  ({ t with next := v }, v)

/-- Scope `commit()`: exactly one `store.set(next)` — hence one version
increment and one notification pass — then return `store.read()`.  The
scope itself is left as it was. -/
def Transaction.commit {T : Type} (t : Transaction T) (store : Store T) :
    Store T × Nat × T :=
  let r := Store.set store t.next
  (r.2.1, r.2.2, Store.read r.2.1)

/-- Scope `rollback()`: reset `next` to the creation-time baseline and
return it; the container is never touched. -/
def Transaction.rollback {T : Type} (t : Transaction T) : Transaction T × T :=
  ({ t with next := t.initial }, t.initial)

/-- A staged (container-free) scope call. -/
inductive StagedOp (T : Type) : Type 1 where
  | apply (P : Type) (reducer : T → P → T) (payload : P) : StagedOp T
  | compute (fn : T → T) : StagedOp T
  | set (next : T) : StagedOp T

/-- Dispatch of a staged call on the scope. -/
def Transaction.stage {T : Type} (t : Transaction T) : StagedOp T → Transaction T × T
  | .apply _ reducer payload => Transaction.apply t reducer payload
  | .compute fn => Transaction.compute t fn
  | .set v => Transaction.set t v

/-- The effect of a staged call on the pending value. -/
def StagedOp.app {T : Type} : StagedOp T → T → T
  | .apply _ reducer payload => fun t => reducer t payload
  | .compute fn => fn
  | .set v => fun _ => v

/-- Any scope call, staged or terminal.  The source never flags a scope as
terminated, so every call is available in every state. -/
inductive TxnOp (T : Type) : Type 1 where
  | staged (op : StagedOp T) : TxnOp T
  | commit : TxnOp T
  | rollback : TxnOp T

def TxnOp.isCommit {T : Type} : TxnOp T → Bool
  | .commit => true
  | _ => false

/-- The number of `commit` calls in a call sequence. -/
def commitCount {T : Type} : List (TxnOp T) → Nat
  | [] => 0
  | .commit :: rest => commitCount rest + 1
  | .staged _ :: rest => commitCount rest
  | .rollback :: rest => commitCount rest

/-- One scope call against the combined state (scope, container,
cumulative notification passes). -/
def txnStep {T : Type} (st : Transaction T × Store T × Nat) (op : TxnOp T) :
    Transaction T × Store T × Nat :=
  match op with
  | .staged op => ((Transaction.stage st.1 op).1, st.2.1, st.2.2)
  | .commit =>
      let r := Transaction.commit st.1 st.2.1
      (st.1, r.1, st.2.2 + r.2.1)
  | .rollback => ((Transaction.rollback st.1).1, st.2.1, st.2.2)

/-- A sequence of scope calls. -/
def runTxn {T : Type} (st : Transaction T × Store T × Nat) (ops : List (TxnOp T)) :
    Transaction T × Store T × Nat :=
  ops.foldl txnStep st

theorem stage_eq_app {T : Type} (t : Transaction T) (op : StagedOp T) :
    (Transaction.stage t op).1 = { t with next := StagedOp.app op t.next } := by
  cases op <;> rfl

theorem runTxn_staged {T : Type} (ops : List (StagedOp T)) :
    ∀ (t : Transaction T) (s : Store T) (n : Nat),
      runTxn (t, s, n) (ops.map TxnOp.staged) =
        ({ t with next := ops.foldl (fun a op => StagedOp.app op a) t.next }, s, n) := by
  induction ops with
  | nil => intro t s n; rfl
  | cons op rest ih =>
      intro t s n
      simp only [List.map_cons, List.foldl_cons, runTxn, List.foldl, txnStep,
        stage_eq_app]
      exact ih _ s n

theorem runTxn_initial {T : Type} (ops : List (TxnOp T)) :
    ∀ (t : Transaction T) (s : Store T) (n : Nat),
      (runTxn (t, s, n) ops).1.initial = t.initial := by
  induction ops with
  | nil => intro t s n; rfl
  | cons op rest ih =>
      intro t s n
      cases op with
      | staged op =>
          simp only [runTxn, List.foldl, txnStep, stage_eq_app]
          exact ih _ s n
      | commit => exact ih t _ _
      | rollback => exact ih _ s n

theorem runTxn_append {T : Type} (st : Transaction T × Store T × Nat)
    (l1 l2 : List (TxnOp T)) :
    runTxn st (l1 ++ l2) = runTxn (runTxn st l1) l2 := by
  simp [runTxn, List.foldl_append]

theorem runTxn_accounting {T : Type} (ops : List (TxnOp T)) :
    ∀ (t : Transaction T) (s : Store T) (n : Nat),
      (runTxn (t, s, n) ops).2.1.version = s.version + commitCount ops ∧
      (runTxn (t, s, n) ops).2.2 = n + commitCount ops := by
  induction ops with
  | nil => intro t s n; exact ⟨rfl, rfl⟩
  | cons op rest ih =>
      intro t s n
      cases op with
      | staged op =>
          have h := ih (Transaction.stage t op).1 s n
          simpa [runTxn, List.foldl, txnStep, commitCount] using h
      | commit =>
          have h := ih t { current := t.next, version := s.version + 1 } (n + 1)
          show (List.foldl txnStep
            (t, { current := t.next, version := s.version + 1 }, n + 1) rest).2.1.version
              = s.version + commitCount (TxnOp.commit :: rest) ∧
            (List.foldl txnStep
            (t, { current := t.next, version := s.version + 1 }, n + 1) rest).2.2
              = n + commitCount (TxnOp.commit :: rest)
          simp only [commitCount] at h ⊢
          constructor
          · rw [show (List.foldl txnStep
              (t, { current := t.next, version := s.version + 1 }, n + 1) rest)
                = runTxn (t, { current := t.next, version := s.version + 1 }, n + 1) rest
              from rfl, h.1]
            omega
          · rw [show (List.foldl txnStep
              (t, { current := t.next, version := s.version + 1 }, n + 1) rest)
                = runTxn (t, { current := t.next, version := s.version + 1 }, n + 1) rest
              from rfl, h.2]
            omega
      | rollback =>
          have h := ih (Transaction.rollback t).1 s n
          simpa [runTxn, List.foldl, txnStep, commitCount] using h

/-- Claim C6: after any sequence of staged `apply`/`compute`/`set` calls,
the container's value and version are untouched and no notification has
occurred; `rollback()` keeps it that way, resets the scope so its `read()`
returns the creation-time baseline, and returns that baseline. -/
theorem c6_rollback_frame {T : Type} (store : Store T) (ops : List (StagedOp T)) :
    (runTxn (beginTransaction store, store, 0) (ops.map TxnOp.staged)).2.1 = store ∧
    (runTxn (beginTransaction store, store, 0) (ops.map TxnOp.staged)).2.2 = 0 ∧
    (runTxn (beginTransaction store, store, 0) (ops.map TxnOp.staged ++ [TxnOp.rollback])).2.1
      = store ∧
    (runTxn (beginTransaction store, store, 0) (ops.map TxnOp.staged ++ [TxnOp.rollback])).2.2
      = 0 ∧
    Transaction.read
      (runTxn (beginTransaction store, store, 0) (ops.map TxnOp.staged ++ [TxnOp.rollback])).1
      = Store.read store ∧
    (Transaction.rollback
      (runTxn (beginTransaction store, store, 0) (ops.map TxnOp.staged)).1).2
      = Store.read store := by
  rw [runTxn_append (beginTransaction store, store, 0) (ops.map TxnOp.staged)
    [TxnOp.rollback]]
  rw [runTxn_staged ops (beginTransaction store) store 0]
  exact ⟨rfl, rfl, rfl, rfl, rfl, rfl⟩

/-- Claim C7: `commit()` after any number of staged calls performs exactly
one container mutation: a single `set` of the pending value, one version
increment, one notification pass; the pending value equals the fold of the
staged calls over the baseline, and `commit` returns the container's
resulting value. -/
theorem c7_commit_once {T : Type} (store : Store T) (ops : List (StagedOp T)) :
    (Transaction.commit
        (runTxn (beginTransaction store, store, 0) (ops.map TxnOp.staged)).1
        (runTxn (beginTransaction store, store, 0) (ops.map TxnOp.staged)).2.1).2.1 = 1 ∧
    (Transaction.commit
        (runTxn (beginTransaction store, store, 0) (ops.map TxnOp.staged)).1
        (runTxn (beginTransaction store, store, 0) (ops.map TxnOp.staged)).2.1).1.version
      = store.version + 1 ∧
    (Transaction.commit
        (runTxn (beginTransaction store, store, 0) (ops.map TxnOp.staged)).1
        (runTxn (beginTransaction store, store, 0) (ops.map TxnOp.staged)).2.1).1.current
      = ops.foldl (fun a op => StagedOp.app op a) (Store.read store) ∧
    (runTxn (beginTransaction store, store, 0) (ops.map TxnOp.staged)).1.next
      = ops.foldl (fun a op => StagedOp.app op a) (Store.read store) ∧
    (Transaction.commit
        (runTxn (beginTransaction store, store, 0) (ops.map TxnOp.staged)).1
        (runTxn (beginTransaction store, store, 0) (ops.map TxnOp.staged)).2.1).2.2
      = (Transaction.commit
          (runTxn (beginTransaction store, store, 0) (ops.map TxnOp.staged)).1
          (runTxn (beginTransaction store, store, 0) (ops.map TxnOp.staged)).2.1).1.current := by
  rw [runTxn_staged ops (beginTransaction store) store 0]
  exact ⟨rfl, rfl, rfl, rfl, rfl⟩

/-- Claim C10: a scope has no termination state — every call is a total
function of the current state, so `commit` and `rollback` may be called
any number of times in any order.  Over any call sequence: the container's
version and the notification count each grow by exactly the number of
`commit` calls; a `rollback` at any point resets the pending value to the
creation-time baseline (which no call ever changes); a `commit` at any
point publishes exactly the current pending value; and staged calls keep
working afterwards, continuing from the current pending value. -/
theorem c10_no_termination_state {T : Type} (store : Store T) (ops : List (TxnOp T)) :
    (runTxn (beginTransaction store, store, 0) ops).2.1.version
      = store.version + commitCount ops ∧
    (runTxn (beginTransaction store, store, 0) ops).2.2 = commitCount ops ∧
    (runTxn (beginTransaction store, store, 0) (ops ++ [TxnOp.rollback])).1.next
      = Store.read store ∧
    (runTxn (beginTransaction store, store, 0) (ops ++ [TxnOp.commit])).2.1.current
      = (runTxn (beginTransaction store, store, 0) ops).1.next ∧
    (∀ (P : Type) (reducer : T → P → T) (payload : P),
      (runTxn (beginTransaction store, store, 0)
          (ops ++ [TxnOp.staged (StagedOp.apply P reducer payload)])).1.next
        = reducer (runTxn (beginTransaction store, store, 0) ops).1.next payload) := by
  have hacc := runTxn_accounting ops (beginTransaction store) store 0
  refine ⟨hacc.1, by rw [hacc.2]; omega, ?_, ?_, ?_⟩
  · rw [runTxn_append (beginTransaction store, store, 0) ops [TxnOp.rollback]]
    have hini := runTxn_initial ops (beginTransaction store) store 0
    show (Transaction.rollback (runTxn (beginTransaction store, store, 0) ops).1).1.next
      = Store.read store
    rw [show (Transaction.rollback
      (runTxn (beginTransaction store, store, 0) ops).1).1.next
        = (runTxn (beginTransaction store, store, 0) ops).1.initial from rfl]
    rw [hini]
    rfl
  · rw [runTxn_append (beginTransaction store, store, 0) ops [TxnOp.commit]]
    rfl
  · intro P reducer payload
    rw [runTxn_append (beginTransaction store, store, 0) ops
      [TxnOp.staged (StagedOp.apply P reducer payload)]]
    rfl

/-!
Composite views (`combineStores`).  The member containers and the
composite are one synchronous system: a member mutation runs the member's
notification pass, and the combine listener for that member — when
attached — immediately re-snapshots the member into its slot of the
aggregate.  `Object.is` on member values is decidable equality of the
model type; keys are a fixed decidable type.
-/

/-- The state of a `combineStores` composite together with its member
containers: each member's current value, the composite's `current`
aggregate mapping, the `prev` of each member-listener subscription (only
meaningful while attached), whether the member listeners are attached
(`childUnsubs` non-null), and the number of composite subscribers. -/
structure CombSys (K V : Type) where
  members : K → V
  aggregate : K → V
  prevs : K → V
  attached : Bool
  subsCount : Nat

/-- `combineStores(stores)`: the aggregate starts as the snapshot of every
member; no member listeners attached, no subscribers.  `prevs` is seeded
at attach time; its initial content is irrelevant and set to the members'
values. -/
def combineInit {K V : Type} (vals : K → V) : CombSys K V :=
  { members := vals, aggregate := vals, prevs := vals, attached := false,
    subsCount := 0 }

/-- An event of the composite system: a member container is `set` to a
value, a composite subscriber is added, or one is removed. -/
inductive CombEvent (K V : Type) where
  | memberSet (k : K) (v : V) : CombEvent K V
  | subscribe : CombEvent K V
  | unsubscribe : CombEvent K V

/-- One event of the composite system; the returned number counts the
composite's own `notifyAll` passes.

`memberSet`: the member replaces its value and runs its pass.  When
attached, the member-listener (identity selector, `Object.is` equality)
fires only if the value changed from its `prev`; the handler then spreads
the aggregate, replaces only slot `k` with the member's fresh snapshot,
and — the spread being a fresh object, never `Object.is`-equal to the old
aggregate — installs it and notifies.  When detached, nothing reaches the
composite.

`subscribe`: on the first subscriber, attach one listener per member,
seeding each listener's `prev` with that member's current value; the
aggregate itself is not refreshed.

`unsubscribe`: remove one subscriber; when none remain, detach all member
listeners. -/
def combStep {K V : Type} [DecidableEq K] [DecidableEq V] (s : CombSys K V) :
    CombEvent K V → CombSys K V × Nat
  | .memberSet k v =>
      let members' := Function.update s.members k v
      if s.attached then
        if s.prevs k = v then
          ({ s with members := members' }, 0)
        else
          ({ s with members := members',
                    prevs := Function.update s.prevs k v,
                    aggregate := Function.update s.aggregate k v }, 1)
      else
        ({ s with members := members' }, 0)
  | .subscribe =>
      if s.attached then
        ({ s with subsCount := s.subsCount + 1 }, 0)
      else
        ({ s with attached := true, prevs := s.members,
                  subsCount := s.subsCount + 1 }, 0)
  | .unsubscribe =>
      if s.subsCount - 1 = 0 then
        ({ s with subsCount := 0, attached := false }, 0)
      else
        ({ s with subsCount := s.subsCount - 1 }, 0)

/-- A sequence of composite-system events. -/
def runComb {K V : Type} [DecidableEq K] [DecidableEq V] (s : CombSys K V)
    (events : List (CombEvent K V)) : CombSys K V :=
  events.foldl (fun s e => (combStep s e).1) s

/-- The condition that every member mutation in the event sequence happens
while the composite is attached (someone subscribes before it and the
subscribers never all leave in between). -/
def attachedDuring {K V : Type} [DecidableEq K] [DecidableEq V] (s : CombSys K V) :
    List (CombEvent K V) → Prop
  | [] => True
  | e :: rest =>
      (match e with
       | .memberSet _ _ => s.attached = true
       | _ => True) ∧ attachedDuring (combStep s e).1 rest

/-- Claim C8: while attached, a change notification of member `k` replaces
only slot `k` of the aggregate with the member's fresh snapshot — every
other slot keeps its existing value (reference) — and triggers one
composite pass; a member pass deduplicated away (value `Object.is`-equal
to the listener's `prev`) leaves the aggregate — hence the reference
`read()` returns — entirely unchanged and triggers no composite pass. -/
theorem c8_single_slot_replace {K V : Type} [DecidableEq K] [DecidableEq V]
    (s : CombSys K V) (k : K) (v : V) :
    s.attached = true →
    (∀ j, j ≠ k →
      (combStep s (CombEvent.memberSet k v)).1.aggregate j = s.aggregate j) ∧
    (s.prevs k ≠ v →
      (combStep s (CombEvent.memberSet k v)).1.aggregate k = v ∧
      (combStep s (CombEvent.memberSet k v)).2 = 1) ∧
    (s.prevs k = v →
      (combStep s (CombEvent.memberSet k v)).1.aggregate = s.aggregate ∧
      (combStep s (CombEvent.memberSet k v)).2 = 0) := by
  intro hat
  refine ⟨?_, ?_, ?_⟩
  · intro j hj
    by_cases hp : s.prevs k = v
    · simp [combStep, hat, hp]
    · simp [combStep, hat, hp, Function.update_noteq hj]
  · intro hp
    constructor
    · simp [combStep, hat, hp, Function.update_same]
    · simp [combStep, hat, hp]
  · intro hp
    constructor
    · simp [combStep, hat, hp]
    · simp [combStep, hat, hp]

theorem c8_witness :
    (combStep (⟨fun _ => 0, fun _ => 0, fun _ => 0, true, 1⟩ : CombSys Bool Nat)
        (CombEvent.memberSet true 5)).1.aggregate true = 5 ∧
    (combStep (⟨fun _ => 0, fun _ => 0, fun _ => 0, true, 1⟩ : CombSys Bool Nat)
        (CombEvent.memberSet true 5)).1.aggregate false = 0 ∧
    (combStep (⟨fun _ => 0, fun _ => 0, fun _ => 0, true, 1⟩ : CombSys Bool Nat)
        (CombEvent.memberSet true 5)).2 = 1 := by
  have h := c8_single_slot_replace
    (⟨fun _ => 0, fun _ => 0, fun _ => 0, true, 1⟩ : CombSys Bool Nat) true 5 rfl
  refine ⟨(h.2.1 (by decide)).1, h.1 false (by decide), (h.2.1 (by decide)).2⟩

/-- Counterexample to claim C9 as stated: a member mutated while the
composite has no subscribers notifies (its own pass runs) but the
composite, being detached, never re-reads it; after two such mutations the
aggregate still holds the construction-time value — stale by two
notification ticks, and `read()` would keep returning it indefinitely. -/
theorem c9_detached_staleness :
    (runComb (combineInit (fun _ : Unit => (0 : Nat)))
        [CombEvent.memberSet () 5, CombEvent.memberSet () 6]).aggregate () = 0 ∧
    (runComb (combineInit (fun _ : Unit => (0 : Nat)))
        [CombEvent.memberSet () 5, CombEvent.memberSet () 6]).members () = 6 := by
  constructor
  · rfl
  · simp [runComb, combStep, combineInit, Function.update]

theorem comb_invariant_step {K V : Type} [DecidableEq K] [DecidableEq V]
    (s : CombSys K V) (e : CombEvent K V)
    (hcond : match e with
             | .memberSet _ _ => s.attached = true
             | _ => True)
    (hagg : ∀ j, s.aggregate j = s.members j)
    (hprev : s.attached = true → ∀ j, s.prevs j = s.members j) :
    (∀ j, (combStep s e).1.aggregate j = (combStep s e).1.members j) ∧
    ((combStep s e).1.attached = true →
      ∀ j, (combStep s e).1.prevs j = (combStep s e).1.members j) := by
  cases e with
  | memberSet k v =>
      have hat : s.attached = true := hcond
      by_cases hp : s.prevs k = v
      · constructor
        · intro j
          simp only [combStep, hat, hp, if_true]
          by_cases hj : j = k
          · subst hj
            rw [Function.update_same]
            rw [hagg j, ← hprev hat j, hp]
          · rw [Function.update_noteq hj]
            exact hagg j
        · intro _ j
          simp only [combStep, hat, hp, if_true]
          by_cases hj : j = k
          · subst hj
            rw [Function.update_same, ← hp]
          · rw [Function.update_noteq hj]
            exact hprev hat j
      · constructor
        · intro j
          simp only [combStep, hat, hp, if_true, if_false]
          by_cases hj : j = k
          · subst hj
            rw [Function.update_same, Function.update_same]
          · rw [Function.update_noteq hj, Function.update_noteq hj]
            exact hagg j
        · intro _ j
          simp only [combStep, hat, hp, if_true, if_false]
          by_cases hj : j = k
          · subst hj
            rw [Function.update_same, Function.update_same]
          · rw [Function.update_noteq hj, Function.update_noteq hj]
            exact hprev hat j
  | subscribe =>
      by_cases hat : s.attached = true
      · constructor
        · intro j
          simp only [combStep, hat, if_true]
          exact hagg j
        · intro _ j
          simp only [combStep, hat, if_true]
          exact hprev hat j
      · have hat' : s.attached = false := by
          cases h : s.attached
          · rfl
          · exact absurd h hat
        constructor
        · intro j
          simp only [combStep, hat', Bool.false_eq_true, if_false]
          exact hagg j
        · intro _ j
          simp only [combStep, hat', Bool.false_eq_true, if_false]
  | unsubscribe =>
      by_cases hc : s.subsCount - 1 = 0
      · constructor
        · intro j
          simp only [combStep, hc, if_true]
          exact hagg j
        · intro h
          simp only [combStep, hc, if_true] at h
          cases h
      · constructor
        · intro j
          simp only [combStep, hc, if_false]
          exact hagg j
        · intro h j
          simp only [combStep, hc, if_false] at h ⊢
          exact hprev h j

/-- Claim C9, amended: the aggregate reflects every member's current
(most-recently-notified) value in every state reachable by event sequences
whose member mutations all happen while the composite is attached.  As
stated over all reachable states the claim fails: a member mutated while
nobody subscribes to the composite notifies without the composite
re-reading it, and the aggregate stays stale for arbitrarily many ticks
(attach does not re-snapshot the members). -/
theorem c9_aggregate_fresh_while_attached {K V : Type} [DecidableEq K]
    [DecidableEq V] (vals : K → V) (events : List (CombEvent K V)) :
    attachedDuring (combineInit vals) events →
    ∀ k, (runComb (combineInit vals) events).aggregate k
          = (runComb (combineInit vals) events).members k := by
  suffices h : ∀ (events : List (CombEvent K V)) (s : CombSys K V),
      attachedDuring s events →
      (∀ j, s.aggregate j = s.members j) →
      (s.attached = true → ∀ j, s.prevs j = s.members j) →
      ∀ k, (runComb s events).aggregate k = (runComb s events).members k by
    intro hcond k
    exact h events (combineInit vals) hcond (fun _ => rfl) (fun _ _ => rfl) k
  intro events
  induction events with
  | nil =>
      intro s _ hagg _ k
      exact hagg k
  | cons e rest ih =>
      intro s hcond hagg hprev k
      have hstep := comb_invariant_step s e hcond.1 hagg hprev
      exact ih (combStep s e).1 hcond.2 hstep.1 hstep.2 k

theorem c9_witness :
    attachedDuring (combineInit (fun _ : Unit => (0 : Nat)))
      [CombEvent.subscribe, CombEvent.memberSet () 5] ∧
    (runComb (combineInit (fun _ : Unit => (0 : Nat)))
        [CombEvent.subscribe, CombEvent.memberSet () 5]).aggregate ()
      = (runComb (combineInit (fun _ : Unit => (0 : Nat)))
        [CombEvent.subscribe, CombEvent.memberSet () 5]).members () := by
  have hcond : attachedDuring (combineInit (fun _ : Unit => (0 : Nat)))
      [CombEvent.subscribe, CombEvent.memberSet () 5] := by
    refine ⟨trivial, ?_, trivial⟩
    rfl
  exact ⟨hcond, c9_aggregate_fresh_while_attached (fun _ => 0)
    [CombEvent.subscribe, CombEvent.memberSet () 5] hcond ()⟩

end Exostate
